import Mathlib

/-!
Shallow embedding of `analyze_repo.py`, a directory-tree statistics tool.

Modelling conventions:
* The filesystem is an inductive tree of files and directories. A file carries
  a `readable` flag (whether `os.path.getsize` succeeds on it); a directory
  carries a `listable` flag (whether `os.scandir` succeeds on it).
* `os.walk(start)` is a top-down walk with `onerror=None`: every `OSError`
  raised while listing a directory is swallowed and that directory yields no
  triple. In particular `os.walk` on a nonexistent, inaccessible or non-directory
  start path yields nothing and raises nothing; we model the start path as an
  `Option FSEntry`, `none` standing for a path that does not exist.
* Paths are lists of name components relative to the start path, so
  `os.path.relpath(os.path.join(root, f), start)` is the component list
  joined with "/".
* Python numbers: every value reaching the two formatters is an `int`, or an
  `int` divided by powers of `1024.0` (exact in binary floating point for
  sizes below 2^53), or a true division of two ints. We model these values as
  exact non-negative fractions `Frac` (numerator/denominator, never
  normalised, denominator positive by construction), and `f"{x:.2f}"` /
  `f"{x:.1f}"` as correct decimal rounding with ties to even, which is what
  CPython's float repr/format performs on the underlying binary value.
* `str.lower` is modelled by ASCII lowercasing (`Char.toLower`), which agrees
  with Python on all ASCII file names.
-/

mutual
/-- A modelled filesystem node. -/
inductive FSEntry where
  | file (name : String) (size : Nat) (readable : Bool)
  | dir (name : String) (listable : Bool) (entries : FSList)
/-- A directory listing, in the order `os.scandir` reports it. -/
inductive FSList where
  | nil
  | cons (e : FSEntry) (rest : FSList)
end

/-- Concatenation of directory listings (used to state where an entry sits
among its siblings). -/
def FSList.append : FSList → FSList → FSList
  | .nil, ys => ys
  | .cons e rest, ys => .cons e (rest.append ys)

/-- Convenience conversion for writing concrete listings. -/
def FSList.ofList : List FSEntry → FSList
  | [] => .nil
  | e :: rest => .cons e (FSList.ofList rest)

/-- `ignore_dirs = {'.git', '.github', '__pycache__', 'node_modules', 'venv', '.venv', '.idea', '.vscode'}`. -/
def ignore_dirs : List String :=
  [".git", ".github", "__pycache__", "node_modules", "venv", ".venv", ".idea", ".vscode"]

/-- `ignore_files = {'.gitignore', '.DS_Store', 'Thumbs.db', 'report.log', 'report.json'}`. -/
def ignore_files : List String :=
  [".gitignore", ".DS_Store", "Thumbs.db", "report.log", "report.json"]

/-- The `files` component of an `os.walk` triple: the regular-file children, in
listing order, each with its size and whether `getsize` succeeds. -/
def filesOf : FSList → List (String × Nat × Bool)
  | .nil => []
  | .cons (.file n s r) rest => (n, s, r) :: filesOf rest
  | .cons (.dir _ _ _) rest => filesOf rest

/-- One triple yielded by `os.walk`: the directory's path (components relative
to the start path) and its regular files. -/
structure WalkEntry where
  path : List String
  files : List (String × Nat × Bool)

/-- The walk below a directory's children: files yield nothing of their own;
a subdirectory whose basename is in `ignore_dirs` is pruned
(`dirs[:] = [d for d in dirs if d not in ignore_dirs]`); a subdirectory whose
listing fails (`listable = false`) is silently skipped by `os.walk`
(`onerror=None`); otherwise the subdirectory yields its triple followed by the
walk of its own children (top-down order). -/
def walkChildren (path : List String) : FSList → List WalkEntry
  | .nil => []
  | .cons (.file _ _ _) rest => walkChildren path rest
  | .cons (.dir n l es) rest =>
      (if n ∈ ignore_dirs then []
       else if l then ⟨path ++ [n], filesOf es⟩ :: walkChildren (path ++ [n]) es
       else [])
      ++ walkChildren path rest

/-- `os.walk(start)` as a list of triples. A missing start path (`none`), a
start path that is a regular file, or an unlistable start directory all yield
the empty list (the initial `scandir` error is swallowed by `onerror=None`).
The start directory itself is never pruned against `ignore_dirs`. -/
def walk : Option FSEntry → List WalkEntry
  | none => []
  | some (.file _ _ _) => []
  | some (.dir _ l es) => if l then ⟨[], filesOf es⟩ :: walkChildren [] es else []

/-- Index of the last '.' in a character list, if any. -/
def lastDotIdx : List Char → Option Nat
  | [] => none
  | c :: rest =>
      match lastDotIdx rest with
      | some i => some (i + 1)
      | none => if c = '.' then some 0 else none

/-- The extension part of `os.path.splitext` on a basename (no path
separators): the suffix from the last '.', except that a last '.' at index 0,
or one preceded only by dots, yields no extension (CPython
`genericpath._splitext`: the scan from `filenameIndex` must find a non-dot
character before `sepIndex`). -/
def splitextExt (cs : List Char) : List Char :=
  match lastDotIdx cs with
  | none => []
  | some i =>
      if 0 < i ∧ (cs.take i).any (fun c => c ≠ '.') then cs.drop i else []

/-- `ext = ext.lower() if ext else 'no_extension'` where
`_, ext = os.path.splitext(file)`. -/
def extKey (name : String) : String :=
  let e := splitextExt name.data
  if e.isEmpty then "no_extension" else String.mk (e.map Char.toLower)

/-- `files_by_extension[ext] = files_by_extension.get(ext, 0) + 1` on a dict in
insertion order: an existing key keeps its position, a new key is appended. -/
def bump : List (String × Nat) → String → List (String × Nat)
  | [], k => [(k, 1)]
  | (k', v) :: rest, k =>
      if k' = k then (k', v + 1) :: rest else (k', v) :: bump rest k

/-- The running accumulators of `get_repo_stats`. -/
structure StatsAcc where
  total_size : Nat
  file_count : Nat
  dir_count : Nat
  files_by_extension : List (String × Nat)
  largest_files : List (List String × Nat)

/-- The body of the inner `for file in files` loop: an ignored basename is
skipped; a file whose `getsize` raises is skipped silently; otherwise the
totals, the extension histogram and the `largest_files` list are updated. -/
def stepFile (path : List String) (acc : StatsAcc) : String × Nat × Bool → StatsAcc
  | (n, s, r) =>
      if n ∈ ignore_files then acc
      else if r then
        { acc with
          total_size := acc.total_size + s,
          file_count := acc.file_count + 1,
          files_by_extension := bump acc.files_by_extension (extKey n),
          largest_files := acc.largest_files ++ [(path ++ [n], s)] }
      else acc

/-- The body of the outer `for root, dirs, files in os.walk(...)` loop:
`dir_count += 1`, then the file loop. -/
def stepEntry (acc : StatsAcc) (w : WalkEntry) : StatsAcc :=
  w.files.foldl (stepFile w.path) { acc with dir_count := acc.dir_count + 1 }

/-- The accumulator state after the whole walk. -/
def scanAcc (root : Option FSEntry) : StatsAcc :=
  (walk root).foldl stepEntry ⟨0, 0, 0, [], []⟩

/-- An exact non-negative rational value `num / den`, as produced by Python's
arithmetic on the sizes (see the module docstring for the float caveat). The
denominator is positive in every value the program builds. -/
structure Frac where
  num : Nat
  den : Nat

/-- The rational number a `Frac` stands for (used in specification statements
only). -/
def Frac.toRat (f : Frac) : ℚ := (f.num : ℚ) / (f.den : ℚ)

/-- Rounding of `a / d` to the nearest integer with ties to even, as Python's
fixed-point float formatting does on the exact value. -/
def rndHalfEven (a d : Nat) : Nat :=
  let q := a / d
  let r := a % d
  if 2 * r < d then q
  else if d < 2 * r then q + 1
  else if q % 2 = 0 then q else q + 1

/-- Two-digit zero-padded rendering of `n < 100`. -/
def pad2 (n : Nat) : String :=
  if n < 10 then "0" ++ Nat.repr n else Nat.repr n

/-- `f"{x:.2f}"` for a non-negative value: the value rounded to hundredths
(ties to even), rendered with exactly two digits after the point. -/
def fix2 (f : Frac) : String :=
  let c := rndHalfEven (f.num * 100) f.den
  Nat.repr (c / 100) ++ "." ++ pad2 (c % 100)

/-- `f"{x:.1f}"` for a non-negative value: the value rounded to tenths (ties
to even), rendered with exactly one digit after the point. -/
def fix1 (f : Frac) : String :=
  let c := rndHalfEven (f.num * 10) f.den
  Nat.repr (c / 10) ++ "." ++ Nat.repr (c % 10)

/-- `size_bytes < 1024.0` on the exact value `f.num / f.den`. -/
def Frac.lt1024 (f : Frac) : Bool := f.num < 1024 * f.den

/-- `size_bytes /= 1024.0` on the exact value. -/
def Frac.div1024 (f : Frac) : Frac := ⟨f.num, f.den * 1024⟩

/-- The loop of `format_size`: `for unit in ['B', 'KB', 'MB', 'GB']: if
size_bytes < 1024.0: return f"{size_bytes:.2f} {unit}"; size_bytes /= 1024.0`,
falling through to `f"{size_bytes:.2f} TB"`. -/
def format_size_loop (f : Frac) : List String → String
  | [] => fix2 f ++ " TB"
  | u :: us => if f.lt1024 then fix2 f ++ " " ++ u else format_size_loop f.div1024 us

/-- `format_size` from `get_repo_stats`. -/
def format_size (f : Frac) : String :=
  format_size_loop f ["B", "KB", "MB", "GB"]

/-- The statistics dictionary returned by `get_repo_stats` (the `timestamp`
field is the `datetime.now()` string, passed in as `now`). -/
structure ScanResult where
  timestamp : String
  total_size_bytes : Nat
  total_size_human : String
  file_count : Nat
  directory_count : Int
  total_items : Int
  files_by_extension : List (String × Nat)
  largest_files : List (String × Nat × String)
  average_file_size : String

/-- Comparison used to sort `largest_files`: descending by size. Python's
stable `sort(key=..., reverse=True)` keeps equal-size entries in first-seen
order; a stable sort under `b.2 ≤ a.2` produces exactly that list, and we use
insertion sort (stable) as the executable model of it. -/
def sizeGe (a b : List String × Nat) : Prop := b.2 ≤ a.2

instance : DecidableRel sizeGe := fun a b => inferInstanceAs (Decidable (b.2 ≤ a.2))

instance : IsTotal (List String × Nat) sizeGe :=
  ⟨fun a b => (Nat.le_total b.2 a.2).imp id id⟩

instance : IsTrans (List String × Nat) sizeGe :=
  ⟨fun _ _ _ hab hbc => Nat.le_trans hbc hab⟩

/-- `get_repo_stats(start_path)`: the walk, the accumulation, the sort of all
collected files by size descending, the truncation to 10, and the assembly of
the result record. -/
def get_repo_stats (now : String) (root : Option FSEntry) : ScanResult :=
  let acc := scanAcc root
  let sorted := acc.largest_files.insertionSort sizeGe
  { timestamp := now,
    total_size_bytes := acc.total_size,
    total_size_human := format_size ⟨acc.total_size, 1⟩,
    file_count := acc.file_count,
    directory_count := (acc.dir_count : Int) - 1,
    total_items := (acc.file_count : Int) + (acc.dir_count : Int) - 1,
    files_by_extension := acc.files_by_extension,
    largest_files :=
      (sorted.take 10).map
        (fun pr => (String.intercalate "/" pr.1, pr.2, format_size ⟨pr.2, 1⟩)),
    average_file_size :=
      if 0 < acc.file_count then format_size ⟨acc.total_size, acc.file_count⟩
      else "0 B" }

/-- Sixty '=' characters, `"=" * 60`. -/
def eqBar : String := String.mk (List.replicate 60 '=')

/-- Sixty '-' characters, `"-" * 60`. -/
def dashBar : String := String.mk (List.replicate 60 '-')

/-- Thousands grouping of a reversed digit list (helper for `{n:,}`). -/
def commaGroupRev : List Char → List Char
  | a :: b :: c :: d :: rest => a :: b :: c :: ',' :: commaGroupRev (d :: rest)
  | l => l

/-- `f"{n:,}"` for a natural number: decimal digits grouped in threes by
commas. -/
def commaSep (n : Nat) : String :=
  String.mk (commaGroupRev (Nat.repr n).data.reverse).reverse

/-- `f"{i:,}"` for an integer (`directory_count` can be negative). -/
def commaSepInt : Int → String
  | .ofNat n => commaSep n
  | .negSucc m => "-" ++ commaSep (m + 1)

/-- `f"{s:>w}"`: right-justify in `w` characters (no truncation). -/
def padLeft (s : String) (w : Nat) : String :=
  String.mk (List.replicate (w - s.length) ' ') ++ s

/-- `f"{s:<w}"`: left-justify in `w` characters (no truncation). -/
def padRight (s : String) (w : Nat) : String :=
  s ++ String.mk (List.replicate (w - s.length) ' ')

/-- Order used for the extension breakdown:
`sorted(items, key=lambda x: x[1], reverse=True)`, stable descending by
count. -/
def cntGe (a b : String × Nat) : Prop := b.2 ≤ a.2

instance : DecidableRel cntGe := fun a b => inferInstanceAs (Decidable (b.2 ≤ a.2))

instance : IsTotal (String × Nat) cntGe :=
  ⟨fun a b => (Nat.le_total b.2 a.2).imp id id⟩

instance : IsTrans (String × Nat) cntGe :=
  ⟨fun _ _ _ hab hbc => Nat.le_trans hbc hab⟩

/-- One line of the extension breakdown:
`f"{ext_name:<20} {count:>6} файлов ({percentage:.1f}%)\n"` with
`ext_name = ext if ext != 'no_extension' else '(без расширения)'` and
`percentage = (count / file_count) * 100 if file_count > 0 else 0`. -/
def extLine (file_count : Nat) (p : String × Nat) : String :=
  let extName := if p.1 = "no_extension" then "(без расширения)" else p.1
  let pct : Frac := if 0 < file_count then ⟨p.2 * 100, file_count⟩ else ⟨0, 1⟩
  padRight extName 20 ++ " " ++ padLeft (Nat.repr p.2) 6 ++ " файлов (" ++
    fix1 pct ++ "%)\n"

/-- One line of the top-10 listing:
`f"{i:2}. {file_info['path']:<40} {file_info['size_human']:>10}\n"`. -/
def fileLine (p : Nat × String × Nat × String) : String :=
  padLeft (Nat.repr p.1) 2 ++ ". " ++ padRight p.2.1 40 ++ " " ++
    padLeft p.2.2.2 10 ++ "\n"

/-- The successive `f.write(...)` arguments of `save_report`, in order. -/
def reportChunks (stats : ScanResult) : List String :=
  [eqBar ++ "\n",
   "ОТЧЁТ О СТАТИСТИКЕ РЕПОЗИТОРИЯ\n",
   eqBar ++ "\n\n",
   "Время анализа: " ++ stats.timestamp ++ "\n",
   "Всего файлов: " ++ commaSep stats.file_count ++ "\n",
   "Всего папок: " ++ commaSepInt stats.directory_count ++ "\n",
   "Всего элементов: " ++ commaSepInt stats.total_items ++ "\n",
   "Общий объём: " ++ stats.total_size_human ++ "\n",
   "Средний размер файла: " ++ stats.average_file_size ++ "\n",
   "\n" ++ dashBar ++ "\n",
   "РАСПРЕДЕЛЕНИЕ ПО РАСШИРЕНИЯМ:\n",
   dashBar ++ "\n"]
  ++ (stats.files_by_extension.insertionSort cntGe).map (extLine stats.file_count)
  ++ ["\n" ++ dashBar ++ "\n",
      "ТОП-10 САМЫХ БОЛЬШИХ ФАЙЛОВ:\n",
      dashBar ++ "\n"]
  ++ (stats.largest_files.enumFrom 1).map fileLine
  ++ ["\n" ++ eqBar ++ "\n",
      "КОНЕЦ ОТЧЁТА\n",
      eqBar ++ "\n"]

/-- Concatenation of the written chunks: the file content after a sequence of
successful writes. -/
def concatAll : List String → String
  | [] => ""
  | s :: rest => s ++ concatAll rest

/-- The file content left by `open(output_file, 'w')` followed by the given
writes, and whether the write sequence completed. `open(..., 'w')` truncates
the destination immediately; `failAt = some k` means the k-th write (0-based)
raises an `OSError`: the destination is left holding the chunks written so
far, and the error propagates to the caller (`save_report` does not catch
it). -/
def writeResult (chunks : List String) : Option Nat → Option String × Bool
  | none => (some (concatAll chunks), true)
  | some k => (some (concatAll (chunks.take k)), false)

/-- Model of `main` for one run (fixed `--path`, default `--output`, no
`--json`): `get_repo_stats` itself never raises — `os.walk` with
`onerror=None` swallows the initial `scandir` failure — so the
`FileNotFoundError` and `PermissionError` handlers in `main` are unreachable
for a missing or inaccessible root; the run proceeds to `save_report`. An
`OSError` raised while writing is caught by the `except Exception` handler:
`main` prints a diagnostic and returns 1; otherwise it returns 0. The result
is (exit code, final content of the `--output` file). -/
def main_run (now : String) (root : Option FSEntry) (failAt : Option Nat) :
    Nat × Option String :=
  let stats := get_repo_stats now root
  let w := writeResult (reportChunks stats) failAt
  (if w.2 then 0 else 1, w.1)

example : (get_repo_stats "t" none).directory_count = -1 := by decide
example : format_size ⟨0, 1⟩ = "0.00 B" := by decide
example : format_size ⟨1023, 1⟩ = "1023.00 B" := by decide
example : format_size ⟨1024, 1⟩ = "1.00 KB" := by decide
example : format_size ⟨1024 * 1024, 1⟩ = "1.00 MB" := by decide
example : extKey ".env" = "no_extension" := by decide
example : extKey "b.TXT" = ".txt" := by decide
example : extKey "README" = "no_extension" := by decide
example :
    (get_repo_stats "t" (some (.dir "r" true (.ofList
      [.file "a.txt" 100 true, .file "b.TXT" 50 true, .file "README" 10 true,
       .dir "venv" true (.ofList [.file "x.py" 999999 true])])))).file_count = 3 := by decide
example :
    (get_repo_stats "t" (some (.dir "r" true (.ofList
      [.file "a.txt" 100 true, .file "b.TXT" 50 true, .file "README" 10 true,
       .dir "venv" true (.ofList [.file "x.py" 999999 true])])))).files_by_extension
    = [(".txt", 2), ("no_extension", 1)] := by decide
example :
    (get_repo_stats "t" (some (.dir "r" true (.ofList
      [.file "a.txt" 100 true, .file "b.TXT" 50 true, .file "README" 10 true,
       .dir "venv" true (.ofList [.file "x.py" 999999 true])])))).largest_files
    = [("a.txt", 100, "100.00 B"), ("b.TXT", 50, "50.00 B"), ("README", 10, "10.00 B")] := by decide

/-! ### Accumulator lemmas -/

theorem stepFile_dir_count (p : List String) (a : StatsAcc) (f : String × Nat × Bool) :
    (stepFile p a f).dir_count = a.dir_count := by
  obtain ⟨n, s, r⟩ := f
  simp only [stepFile]
  split <;> [rfl; skip]
  split <;> rfl

theorem foldl_stepFile_dir_count (p : List String) (fs : List (String × Nat × Bool))
    (a : StatsAcc) : (fs.foldl (stepFile p) a).dir_count = a.dir_count := by
  induction fs generalizing a with
  | nil => rfl
  | cons f rest ih => rw [List.foldl_cons, ih, stepFile_dir_count]

theorem stepEntry_dir_count (a : StatsAcc) (w : WalkEntry) :
    (stepEntry a w).dir_count = a.dir_count + 1 := by
  simp only [stepEntry]
  rw [foldl_stepFile_dir_count]

theorem foldl_stepEntry_dir_count (ws : List WalkEntry) (a : StatsAcc) :
    (ws.foldl stepEntry a).dir_count = a.dir_count + ws.length := by
  induction ws generalizing a with
  | nil => rfl
  | cons w rest ih =>
      rw [List.foldl_cons, ih, stepEntry_dir_count, List.length_cons]
      omega

theorem scanAcc_dir_count (root : Option FSEntry) :
    (scanAcc root).dir_count = (walk root).length := by
  simp only [scanAcc]
  rw [foldl_stepEntry_dir_count]
  simp

/-- Sum of the per-extension counts. -/
def sumVals (m : List (String × Nat)) : Nat := (m.map Prod.snd).sum

theorem sumVals_bump (m : List (String × Nat)) (k : String) :
    sumVals (bump m k) = sumVals m + 1 := by
  induction m with
  | nil => rfl
  | cons p rest ih =>
      obtain ⟨k', v⟩ := p
      simp only [bump]
      split
      · simp [sumVals]
        omega
      · simp only [sumVals, List.map_cons, List.sum_cons] at *
        omega

/-- The invariant carried through the accumulation: the histogram counts sum
to the file count, and one `largest_files` tuple was collected per counted
file. -/
def accInv (a : StatsAcc) : Prop :=
  sumVals a.files_by_extension = a.file_count ∧
  a.largest_files.length = a.file_count

theorem stepFile_inv (p : List String) (a : StatsAcc) (f : String × Nat × Bool)
    (h : accInv a) : accInv (stepFile p a f) := by
  obtain ⟨n, s, r⟩ := f
  obtain ⟨h1, h2⟩ := h
  simp only [stepFile]
  split
  · exact ⟨h1, h2⟩
  · split
    · refine ⟨?_, ?_⟩
      · simp only [sumVals_bump, h1]
      · simp [h2]
    · exact ⟨h1, h2⟩

theorem foldl_stepFile_inv (p : List String) (fs : List (String × Nat × Bool))
    (a : StatsAcc) (h : accInv a) : accInv (fs.foldl (stepFile p) a) := by
  induction fs generalizing a with
  | nil => exact h
  | cons f rest ih => exact ih _ (stepFile_inv p a f h)

theorem stepEntry_inv (a : StatsAcc) (w : WalkEntry) (h : accInv a) :
    accInv (stepEntry a w) := by
  apply foldl_stepFile_inv
  exact ⟨h.1, h.2⟩

theorem foldl_stepEntry_inv (ws : List WalkEntry) (a : StatsAcc) (h : accInv a) :
    accInv (ws.foldl stepEntry a) := by
  induction ws generalizing a with
  | nil => exact h
  | cons w rest ih => exact ih _ (stepEntry_inv a w h)

theorem scanAcc_inv (root : Option FSEntry) : accInv (scanAcc root) :=
  foldl_stepEntry_inv _ _ ⟨rfl, rfl⟩

/-! ### Walk lemmas -/

theorem filesOf_append : ∀ (xs ys : FSList),
    filesOf (xs.append ys) = filesOf xs ++ filesOf ys
  | .nil, _ => rfl
  | .cons (.file n s r) rest, ys => by
      simp [FSList.append, filesOf, filesOf_append rest ys]
  | .cons (.dir n l es) rest, ys => by
      simp [FSList.append, filesOf, filesOf_append rest ys]

theorem walkChildren_append (path : List String) : ∀ (xs ys : FSList),
    walkChildren path (xs.append ys) = walkChildren path xs ++ walkChildren path ys
  | .nil, _ => rfl
  | .cons (.file n s r) rest, ys => by
      simp [FSList.append, walkChildren, walkChildren_append path rest ys]
  | .cons (.dir n l es) rest, ys => by
      simp [FSList.append, walkChildren, walkChildren_append path rest ys]

theorem walkChildren_cons_file (path : List String) (n : String) (s : Nat) (r : Bool)
    (ys : FSList) :
    walkChildren path (.cons (.file n s r) ys) = walkChildren path ys := rfl

theorem walkChildren_cons_ignored_dir (path : List String) (n : String) (l : Bool)
    (es ys : FSList) (h : n ∈ ignore_dirs) :
    walkChildren path (.cons (.dir n l es) ys) = walkChildren path ys := by
  simp [walkChildren, h]

theorem walkChildren_cons_unlistable_dir (path : List String) (n : String)
    (es ys : FSList) :
    walkChildren path (.cons (.dir n false es) ys) = walkChildren path ys := by
  simp only [walkChildren]
  split <;> simp

/-- The whole result record is a function of the walk alone (and the
timestamp). -/
theorem get_repo_stats_congr (now : String) (r1 r2 : Option FSEntry)
    (h : walk r1 = walk r2) : get_repo_stats now r1 = get_repo_stats now r2 := by
  simp only [get_repo_stats, scanAcc, h]

/-! ### Claim theorems -/

/-- C1: the claim says a run on a missing (or permission-denied) root reports
the failure, exits with code 1 and produces no report files. The code does the
opposite: `os.walk` swallows the initial `scandir` error, `get_repo_stats` returns normally
(with `directory_count = -1`), the report is written, and `main` returns 0 —
its `FileNotFoundError`/`PermissionError` handlers are unreachable for the
root. -/
theorem main_missing_root_writes_report_and_exits_zero :
    (main_run "2024-01-01 00:00:00" none none).1 = 0 ∧
    ((main_run "2024-01-01 00:00:00" none none).2).isSome = true ∧
    (get_repo_stats "2024-01-01 00:00:00" none).directory_count = -1 := by
  decide

/-- C2 (counterexample): on a nonexistent starting path the scanner returns
`directory_count = -1 < 0`, refuting the claim for arbitrary starting paths. -/
theorem directory_count_negative_on_missing_root :
    (get_repo_stats "t" none).directory_count = -1 ∧
    ¬ (0 ≤ (get_repo_stats "t" none).directory_count) := by
  decide

/-- C2 (amended): when the starting path is an existing, listable directory,
`directory_count ≥ 0`; `file_count ≥ 0` always. -/
theorem scan_counts_nonneg_of_existing_root (now name : String) (es : FSList) :
    0 ≤ (get_repo_stats now (some (.dir name true es))).directory_count ∧
    0 ≤ (get_repo_stats now (some (.dir name true es))).file_count := by
  refine ⟨?_, Nat.zero_le _⟩
  have h := scanAcc_dir_count (some (.dir name true es))
  simp only [walk, if_pos, List.length_cons] at h
  simp only [get_repo_stats, h]
  omega

/-- C6: for every directory tree the values of `files_by_extension` sum
exactly to `file_count`. -/
theorem files_by_extension_sum_eq_file_count (now : String) (root : Option FSEntry) :
    sumVals (get_repo_stats now root).files_by_extension
      = (get_repo_stats now root).file_count := by
  have h := scanAcc_inv root
  simp only [get_repo_stats]
  exact h.1

/-- C7: `largest_files` has length `min(file_count, 10)`, is sorted by
`size_bytes` non-increasing, and every entry comes from the collected list of
counted files (path rendered relative, size rendered by the formatter). -/
theorem largest_files_spec (now : String) (root : Option FSEntry) :
    (get_repo_stats now root).largest_files.length
      = min (get_repo_stats now root).file_count 10
  ∧ (get_repo_stats now root).largest_files.Pairwise (fun a b => b.2.1 ≤ a.2.1)
  ∧ ∀ e ∈ (get_repo_stats now root).largest_files,
      ∃ pr ∈ (scanAcc root).largest_files,
        e = (String.intercalate "/" pr.1, pr.2, format_size ⟨pr.2, 1⟩) := by
  have hinv := scanAcc_inv root
  simp only [get_repo_stats]
  refine ⟨?_, ?_, ?_⟩
  · rw [List.length_map, List.length_take, List.length_insertionSort, hinv.2,
      Nat.min_comm]
  · have hs : List.Sorted sizeGe ((scanAcc root).largest_files.insertionSort sizeGe) :=
      List.sorted_insertionSort sizeGe _
    have ht : List.Pairwise sizeGe
        (((scanAcc root).largest_files.insertionSort sizeGe).take 10) :=
      hs.sublist (List.take_sublist 10 _)
    rw [List.pairwise_map]
    exact ht
  · intro e he
    rw [List.mem_map] at he
    obtain ⟨pr, hpr, rfl⟩ := he
    have h1 : pr ∈ (scanAcc root).largest_files.insertionSort sizeGe :=
      (List.take_sublist 10 _).subset hpr
    have h2 : pr ∈ (scanAcc root).largest_files :=
      (List.Perm.mem_iff (List.perm_insertionSort sizeGe _)).mp h1
    exact ⟨pr, h2, rfl⟩

/-- `get_repo_stats` factors through `scanAcc`. -/
theorem get_repo_stats_congr_acc (now : String) (r1 r2 : Option FSEntry)
    (h : scanAcc r1 = scanAcc r2) : get_repo_stats now r1 = get_repo_stats now r2 := by
  simp only [get_repo_stats, h]

/-- Processing a files list is unaffected by an ignored basename in it. -/
theorem stepEntry_files_ignored (a : StatsAcc) (p : List String)
    (l1 l2 : List (String × Nat × Bool)) (fn : String) (s : Nat) (r : Bool)
    (hfn : fn ∈ ignore_files) :
    stepEntry a ⟨p, l1 ++ (fn, s, r) :: l2⟩ = stepEntry a ⟨p, l1 ++ l2⟩ := by
  simp only [stepEntry, List.foldl_append, List.foldl_cons]
  congr 1
  simp [stepFile, hfn]

/-- The whole accumulation is unaffected by an ignored basename in one walk
entry's files list. -/
theorem foldl_stepEntry_files_ignored (ws1 ws2 : List WalkEntry) (p : List String)
    (l1 l2 : List (String × Nat × Bool)) (fn : String) (s : Nat) (r : Bool)
    (a : StatsAcc) (hfn : fn ∈ ignore_files) :
    (ws1 ++ ⟨p, l1 ++ (fn, s, r) :: l2⟩ :: ws2).foldl stepEntry a
      = (ws1 ++ ⟨p, l1 ++ l2⟩ :: ws2).foldl stepEntry a := by
  rw [List.foldl_append, List.foldl_append, List.foldl_cons, List.foldl_cons,
    stepEntry_files_ignored _ _ _ _ _ _ _ hfn]

/-- Variant of `foldl_stepEntry_files_ignored` in the shape the walk of a
root directory produces. -/
theorem foldl_stepEntry_cons_ignored (w0 : WalkEntry) (ws1 ws2 : List WalkEntry)
    (p : List String) (l1 l2 : List (String × Nat × Bool)) (fn : String)
    (s : Nat) (r : Bool) (a : StatsAcc) (hfn : fn ∈ ignore_files) :
    (w0 :: (ws1 ++ ⟨p, l1 ++ (fn, s, r) :: l2⟩ :: ws2)).foldl stepEntry a
      = (w0 :: (ws1 ++ ⟨p, l1 ++ l2⟩ :: ws2)).foldl stepEntry a := by
  rw [List.foldl_cons, List.foldl_cons]
  exact foldl_stepEntry_files_ignored _ _ _ _ _ _ _ _ _ hfn

/-- C10: a non-ignored subdirectory of the root whose own listing fails
(permission denied on the directory itself) contributes nothing at all to the
result: no `directory_count` increment and no descendant statistics — the
result equals that of the tree without that subdirectory, and the scan
returns normally (no error is reported; the model is a total function). -/
theorem unlistable_subdir_contributes_nothing (now rn : String) (rl : Bool)
    (es1 es2 des : FSList) (dn : String) (_hdn : dn ∉ ignore_dirs) :
    get_repo_stats now
        (some (.dir rn rl (es1.append (.cons (.dir dn false des) es2))))
      = get_repo_stats now (some (.dir rn rl (es1.append es2))) := by
  apply get_repo_stats_congr
  cases rl with
  | false => simp [walk]
  | true =>
      simp [walk, filesOf_append, filesOf, walkChildren_append,
        walkChildren_cons_unlistable_dir]

/-- C10 (witness): a concrete unlistable subdirectory full of files changes
nothing about the result. -/
theorem unlistable_subdir_contributes_nothing_witness :
    get_repo_stats "t"
        (some (.dir "r" true ((FSList.ofList [.file "a.txt" 7 true]).append
          (.cons (.dir "locked" false (.ofList [.file "big.bin" 999 true]))
            (.ofList [.file "b.txt" 3 true])))))
      = get_repo_stats "t"
        (some (.dir "r" true ((FSList.ofList [.file "a.txt" 7 true]).append
          (.ofList [.file "b.txt" 3 true])))) :=
  unlistable_subdir_contributes_nothing "t" "r" true _ _ _ "locked" (by decide)

/-- C8: (a) a subdirectory whose basename is in `ignore_dirs`, together with
everything beneath it, contributes zero to every statistic: the result equals
that of the tree without it; (b) a file whose basename is in `ignore_files`
is excluded even inside an otherwise-counted subdirectory — the result equals
that of the tree without that file, so its sibling files are counted exactly
as if the ignored file were absent. -/
theorem ignored_entries_contribute_nothing (now rn : String) (rl : Bool)
    (es1 es2 : FSList) (dn : String) (dl : Bool) (des : FSList)
    (es0 es3 is1 is2 : FSList) (sub fn : String) (s : Nat) (r : Bool)
    (hdn : dn ∈ ignore_dirs) (hfn : fn ∈ ignore_files) :
    (get_repo_stats now
        (some (.dir rn rl (es1.append (.cons (.dir dn dl des) es2))))
      = get_repo_stats now (some (.dir rn rl (es1.append es2))))
  ∧ (get_repo_stats now
        (some (.dir rn rl (es0.append (.cons
          (.dir sub true (is1.append (.cons (.file fn s r) is2))) es3))))
      = get_repo_stats now (some (.dir rn rl (es0.append (.cons
          (.dir sub true (is1.append is2)) es3))))) := by
  constructor
  · apply get_repo_stats_congr
    cases rl with
    | false => simp [walk]
    | true =>
        simp [walk, filesOf_append, filesOf, walkChildren_append, walkChildren, hdn]
  · apply get_repo_stats_congr_acc
    cases rl with
    | false => simp [scanAcc, walk]
    | true =>
        by_cases hsub : sub ∈ ignore_dirs
        · have hw : walk (some (.dir rn true (es0.append (.cons
              (.dir sub true (is1.append (.cons (.file fn s r) is2))) es3))))
            = walk (some (.dir rn true (es0.append (.cons
              (.dir sub true (is1.append is2)) es3)))) := by
            simp [walk, filesOf_append, filesOf, walkChildren_append,
              walkChildren, hsub]
          simp only [scanAcc, hw]
        · simp only [scanAcc, walk, if_true, walkChildren_append, filesOf_append,
            walkChildren, filesOf, hsub, if_false, List.cons_append, List.nil_append]
          simp only [List.append_assoc]
          exact foldl_stepEntry_cons_ignored _ _ _ _ _ _ _ _ _ _ hfn

/-- C8 (witness): concrete instances — a populated `.git` directory changes
nothing, and a `.DS_Store` file inside a counted subdirectory changes nothing
while its sibling is still counted. -/
theorem ignored_entries_contribute_nothing_witness :
    (get_repo_stats "t"
        (some (.dir "r" true ((FSList.ofList [.file "a.txt" 7 true]).append
          (.cons (.dir ".git" true (.ofList [.file "objects" 999 true]))
            (.ofList [.file "b.txt" 3 true])))))
      = get_repo_stats "t"
        (some (.dir "r" true ((FSList.ofList [.file "a.txt" 7 true]).append
          (.ofList [.file "b.txt" 3 true])))))
  ∧ (get_repo_stats "t"
        (some (.dir "r" true ((FSList.ofList []).append (.cons
          (.dir "docs" true ((FSList.ofList [.file "sib.md" 5 true]).append
            (.cons (.file ".DS_Store" 11 true) (.ofList []))))
          (.ofList [])))))
      = get_repo_stats "t"
        (some (.dir "r" true ((FSList.ofList []).append (.cons
          (.dir "docs" true ((FSList.ofList [.file "sib.md" 5 true]).append
            (.ofList [])))
          (.ofList [])))))) :=
  ignored_entries_contribute_nothing "t" "r" true
    (FSList.ofList [.file "a.txt" 7 true]) (.ofList [.file "b.txt" 3 true])
    ".git" true (.ofList [.file "objects" 999 true])
    (.ofList []) (.ofList []) (.ofList [.file "sib.md" 5 true]) (.ofList [])
    "docs" ".DS_Store" 11 true (by decide) (by decide)

/-- C3 (counterexample): on an empty tree `file_count = 0` and
`average_file_size` is the literal `"0 B"`, not `"0.00 B"` as the claim
states. -/
theorem average_file_size_empty_not_zero_point_zero_zero :
    (get_repo_stats "t" (some (.dir "r" true .nil))).file_count = 0 ∧
    (get_repo_stats "t" (some (.dir "r" true .nil))).average_file_size = "0 B" ∧
    (get_repo_stats "t" (some (.dir "r" true .nil))).average_file_size ≠ "0.00 B" := by
  decide

/-- C3 (amended): `average_file_size` is `total_size_bytes / file_count`
rendered by the size formatter when `file_count > 0`, and the literal `"0 B"`
when `file_count == 0`. -/
theorem average_file_size_spec (now : String) (root : Option FSEntry) :
    (0 < (get_repo_stats now root).file_count →
      (get_repo_stats now root).average_file_size
        = format_size ⟨(get_repo_stats now root).total_size_bytes,
            (get_repo_stats now root).file_count⟩)
  ∧ ((get_repo_stats now root).file_count = 0 →
      (get_repo_stats now root).average_file_size = "0 B") := by
  simp only [get_repo_stats]
  constructor
  · intro h
    rw [if_pos h]
  · intro h
    rw [if_neg (by omega)]

/-- C3 (witness): the amended statement evaluated on a one-file tree and on an
empty tree. -/
theorem average_file_size_spec_witness :
    ((get_repo_stats "t" (some (.dir "r" true
        (.ofList [.file "a.txt" 100 true])))).average_file_size
      = format_size ⟨(get_repo_stats "t" (some (.dir "r" true
          (.ofList [.file "a.txt" 100 true])))).total_size_bytes,
          (get_repo_stats "t" (some (.dir "r" true
            (.ofList [.file "a.txt" 100 true])))).file_count⟩)
  ∧ (get_repo_stats "t2" (some (.dir "r" true .nil))).average_file_size = "0 B" :=
  ⟨(average_file_size_spec "t" (some (.dir "r" true
      (.ofList [.file "a.txt" 100 true])))).1 (by decide),
   (average_file_size_spec "t2" (some (.dir "r" true .nil))).2 (by decide)⟩

/-! ### Report-writing lemmas -/

theorem concatAll_append : ∀ (l1 l2 : List String),
    concatAll (l1 ++ l2) = concatAll l1 ++ concatAll l2
  | [], l2 => by simp [concatAll]
  | s :: rest, l2 => by
      show s ++ concatAll (rest ++ l2) = (s ++ concatAll rest) ++ concatAll l2
      rw [concatAll_append rest l2, String.append_assoc]

theorem append_ne_empty_of_right (a b : String) (hb : b ≠ "") : a ++ b ≠ "" := by
  intro h
  apply hb
  have hl := congrArg String.length h
  rw [String.length_append] at hl
  have : b.length = 0 := by
    have : String.length "" = 0 := rfl
    omega
  cases b with
  | mk data =>
      cases data with
      | nil => rfl
      | cons c cs => simp [String.length] at this

theorem append_ne_empty_of_left (a b : String) (ha : a ≠ "") : a ++ b ≠ "" := by
  intro h
  apply ha
  have hl := congrArg String.length h
  rw [String.length_append] at hl
  have : a.length = 0 := by
    have : String.length "" = 0 := rfl
    omega
  cases a with
  | mk data =>
      cases data with
      | nil => rfl
      | cons c cs => simp [String.length] at this

/-- Every chunk `save_report` writes is a nonempty string. -/
theorem reportChunks_nonempty (stats : ScanResult) :
    ∀ c ∈ reportChunks stats, c ≠ "" := by
  unfold reportChunks
  simp only [List.forall_mem_append]
  refine ⟨⟨⟨⟨?_, ?_⟩, ?_⟩, ?_⟩, ?_⟩
  · intro c hc
    simp only [List.mem_cons, List.not_mem_nil, or_false] at hc
    rcases hc with rfl | rfl | rfl | rfl | rfl | rfl | rfl | rfl | rfl | rfl |
        rfl | rfl
    all_goals first
      | decide
      | exact append_ne_empty_of_right _ _ (by decide)
  · intro c hc
    obtain ⟨p, -, rfl⟩ := List.mem_map.mp hc
    unfold extLine
    exact append_ne_empty_of_right _ _ (by decide)
  · intro c hc
    simp only [List.mem_cons, List.not_mem_nil, or_false] at hc
    rcases hc with rfl | rfl | rfl
    all_goals decide
  · intro c hc
    obtain ⟨p, -, rfl⟩ := List.mem_map.mp hc
    unfold fileLine
    exact append_ne_empty_of_right _ _ (by decide)
  · intro c hc
    simp only [List.mem_cons, List.not_mem_nil, or_false] at hc
    rcases hc with rfl | rfl | rfl
    all_goals decide

theorem concatAll_ne_empty (l : List String) (hne : l ≠ [])
    (h : ∀ c ∈ l, c ≠ "") : concatAll l ≠ "" := by
  cases l with
  | nil => exact absurd rfl hne
  | cons c rest =>
      exact append_ne_empty_of_left _ _ (h c (List.mem_cons_self c rest))

/-- C4 (counterexample): a write failure on the second chunk of the report for
an empty tree leaves the destination file existing and holding a strict,
nonempty prefix of the report — a partially written file. -/
theorem write_failure_leaves_partial_file :
    ((writeResult (reportChunks (get_repo_stats "t" (some (.dir "r" true .nil))))
        (some 1)).2 = false)
  ∧ ((writeResult (reportChunks (get_repo_stats "t" (some (.dir "r" true .nil))))
        (some 1)).1 ≠ none)
  ∧ ((writeResult (reportChunks (get_repo_stats "t" (some (.dir "r" true .nil))))
        (some 1)).1
      ≠ some (concatAll (reportChunks (get_repo_stats "t" (some (.dir "r" true .nil))))))
  ∧ ((writeResult (reportChunks (get_repo_stats "t" (some (.dir "r" true .nil))))
        (some 1)).1 ≠ some "") := by
  decide

/-- C4 (amended): a write failure partway through `save_report` is fatal for
the run — the error propagates and `main` exits with code 1 — but the
destination file IS left in partial form: it holds exactly the successfully
written chunks, a strict prefix of the full report. -/
theorem report_write_failure_behavior (now : String) (root : Option FSEntry)
    (k : Nat) (hk : k < (reportChunks (get_repo_stats now root)).length) :
    (main_run now root (some k)).1 = 1
  ∧ (main_run now root (some k)).2
      = some (concatAll ((reportChunks (get_repo_stats now root)).take k))
  ∧ concatAll ((reportChunks (get_repo_stats now root)).take k)
      ++ concatAll ((reportChunks (get_repo_stats now root)).drop k)
      = concatAll (reportChunks (get_repo_stats now root))
  ∧ concatAll ((reportChunks (get_repo_stats now root)).take k)
      ≠ concatAll (reportChunks (get_repo_stats now root)) := by
  refine ⟨rfl, rfl, ?_, ?_⟩
  · rw [← concatAll_append, List.take_append_drop]
  · have hdrop : (reportChunks (get_repo_stats now root)).drop k ≠ [] := by
      intro h
      have := congrArg List.length h
      simp only [List.length_drop, List.length_nil] at this
      omega
    have hne : concatAll ((reportChunks (get_repo_stats now root)).drop k) ≠ "" := by
      apply concatAll_ne_empty _ hdrop
      intro c hc
      exact reportChunks_nonempty _ c (List.mem_of_mem_drop hc)
    intro heq
    have hfull : concatAll ((reportChunks (get_repo_stats now root)).take k)
        ++ concatAll ((reportChunks (get_repo_stats now root)).drop k)
        = concatAll (reportChunks (get_repo_stats now root)) := by
      rw [← concatAll_append, List.take_append_drop]
    rw [heq] at hfull
    have hlen := congrArg String.length hfull
    rw [String.length_append] at hlen
    have hzero : (concatAll ((reportChunks (get_repo_stats now root)).drop k)).length
        = 0 := by omega
    apply hne
    cases hx : concatAll ((reportChunks (get_repo_stats now root)).drop k) with
    | mk data =>
        rw [hx] at hzero
        cases data with
        | nil => rfl
        | cons c cs => simp [String.length] at hzero

/-- C4 (witness): the amended statement evaluated at a concrete failing write
(second chunk, empty tree). -/
theorem report_write_failure_behavior_witness :
    (main_run "t" (some (.dir "r" true .nil)) (some 1)).1 = 1
  ∧ (main_run "t" (some (.dir "r" true .nil)) (some 1)).2
      = some (concatAll ((reportChunks (get_repo_stats "t"
          (some (.dir "r" true .nil)))).take 1))
  ∧ concatAll ((reportChunks (get_repo_stats "t" (some (.dir "r" true .nil)))).take 1)
      ++ concatAll ((reportChunks (get_repo_stats "t"
          (some (.dir "r" true .nil)))).drop 1)
      = concatAll (reportChunks (get_repo_stats "t" (some (.dir "r" true .nil))))
  ∧ concatAll ((reportChunks (get_repo_stats "t" (some (.dir "r" true .nil)))).take 1)
      ≠ concatAll (reportChunks (get_repo_stats "t" (some (.dir "r" true .nil)))) :=
  report_write_failure_behavior "t" (some (.dir "r" true .nil)) 1 (by decide)

/-! ### Extension classification -/

theorem lastDotIdx_lt_length (cs : List Char) (i : Nat)
    (h : lastDotIdx cs = some i) : i < cs.length := by
  induction cs generalizing i with
  | nil => simp [lastDotIdx] at h
  | cons c rest ih =>
      cases hr : lastDotIdx rest with
      | some j =>
          simp only [lastDotIdx, hr, Option.some.injEq] at h
          subst h
          have := ih j hr
          simp only [List.length_cons]
          omega
      | none =>
          simp only [lastDotIdx, hr] at h
          by_cases hc : c = '.'
          · rw [if_pos hc] at h
            simp only [Option.some.injEq] at h
            subst h
            simp
          · rw [if_neg hc] at h
            exact absurd h (by simp)

/-- C9 (counterexample): a dotfile whose only '.' is its first character is
classified under the sentinel `"no_extension"`, not under its lower-cased
'.'-suffix as the claim states (`os.path.splitext` yields no extension when
the last dot is preceded only by dots). -/
theorem dotfile_classified_no_extension :
    (get_repo_stats "t" (some (.dir "r" true
        (.ofList [.file ".env" 5 true])))).files_by_extension
      = [("no_extension", 1)]
  ∧ extKey ".env" = "no_extension"
  ∧ "no_extension" ≠ ".env" := by
  decide

/-- The classification rule as the amended claim words it: the category is the
lower-cased substring of the basename from the last '.' onward, except that a
basename with no '.', or one whose characters before that last '.' are all
dots (in particular a leading-dot-only file like `.env`), falls under the
sentinel `"no_extension"`. -/
def claimExtKey (name : String) : String :=
  match lastDotIdx name.data with
  | none => "no_extension"
  | some i =>
      if (name.data.take i).all (fun c => c = '.') then "no_extension"
      else String.mk ((name.data.drop i).map Char.toLower)

/-- C9 (amended): the histogram category computed by the scanner for a
basename agrees with the amended rule, for every basename. -/
theorem extKey_eq_claimExtKey (name : String) : extKey name = claimExtKey name := by
  obtain hnone | ⟨i, hr⟩ : lastDotIdx name.data = none ∨ ∃ i, lastDotIdx name.data = some i := by
    cases lastDotIdx name.data with
    | none => exact Or.inl rfl
    | some i => exact Or.inr ⟨i, rfl⟩
  · simp [extKey, claimExtKey, splitextExt, hnone]
  · simp only [extKey, claimExtKey, splitextExt, hr]
    have hi := lastDotIdx_lt_length name.data i hr
    cases hall : (name.data.take i).all (fun c => c = '.') with
    | true =>
        have hany : (name.data.take i).any (fun c => c ≠ '.') = false := by
          rw [List.any_eq_false]
          intro x hx
          have hx2 := List.all_eq_true.mp hall x hx
          simp only [decide_eq_true_eq] at hx2 ⊢
          simp [hx2]
        have hcond : ¬ (0 < i ∧ (name.data.take i).any (fun c => c ≠ '.') = true) := by
          rintro ⟨-, h2⟩
          rw [hany] at h2
          exact Bool.false_ne_true h2
        rw [if_neg hcond]
        simp
    | false =>
        have hpos : 0 < i := by
          by_contra h
          have hz : i = 0 := by omega
          rw [hz] at hall
          simp at hall
        have hany : (name.data.take i).any (fun c => c ≠ '.') = true := by
          cases hany2 : (name.data.take i).any (fun c => c ≠ '.') with
          | true => rfl
          | false =>
              exfalso
              have hne := List.any_eq_false.mp hany2
              have hat : (name.data.take i).all (fun c => c = '.') = true := by
                rw [List.all_eq_true]
                intro x hx
                have hxp := hne x hx
                simp only [decide_eq_true_eq] at hxp ⊢
                by_contra hxd
                exact hxp (by simpa using hxd)
              rw [hat] at hall
              simp at hall
        have hcond2 : 0 < i ∧ (name.data.take i).any (fun c => c ≠ '.') = true :=
          ⟨hpos, hany⟩
        have hItem : name.data.drop i ≠ [] := by
          intro h
          have := congrArg List.length h
          simp only [List.length_drop, List.length_nil] at this
          omega
        have hdrop : (name.data.drop i).isEmpty = false := by
          cases hd : name.data.drop i with
          | nil => exact absurd hd hItem
          | cons a as => rfl
        rw [if_pos hcond2,
          if_neg (show ¬ (name.data.drop i).isEmpty = true by simp [hdrop]),
          if_neg (show ¬ false = true by simp)]

/-! ### Size formatter specification -/

/-- Claim-side: the ordered unit sequence B, KB, MB, GB, TB. -/
def unitName : Nat → String
  | 0 => "B"
  | 1 => "KB"
  | 2 => "MB"
  | 3 => "GB"
  | _ => "TB"

/-- Claim-side: the index of the smallest unit such that `n / 1024^k < 1024`,
capped at TB (index 4) when no unit satisfies it. -/
def specUnitIdx (n : Nat) : Nat :=
  if n < 1024 then 0
  else if n < 1024 ^ 2 then 1
  else if n < 1024 ^ 3 then 2
  else if n < 1024 ^ 4 then 3
  else 4

theorem pad2_length : ∀ d, d < 100 → (pad2 d).length = 2 := by
  decide

theorem specUnitIdx_le_four (n : Nat) : specUnitIdx n ≤ 4 := by
  unfold specUnitIdx
  split_ifs <;> omega

/-- The value part printed by `fix2` always has an integer part, a point, and
exactly two decimal digits. -/
theorem fix2_shape (f : Frac) : ∃ w d : Nat, d < 100 ∧ (pad2 d).length = 2 ∧
    fix2 f = Nat.repr w ++ "." ++ pad2 d := by
  refine ⟨rndHalfEven (f.num * 100) f.den / 100,
    rndHalfEven (f.num * 100) f.den % 100, ?_, ?_, rfl⟩
  · exact Nat.mod_lt _ (by norm_num)
  · exact pad2_length _ (Nat.mod_lt _ (by norm_num))

/-- The loop of `format_size` lands exactly on the unit of index
`specUnitIdx n`, with the value divided by `1024 ^ specUnitIdx n`. -/
theorem format_size_eq_spec (n : Nat) :
    format_size ⟨n, 1⟩
      = fix2 ⟨n, 1024 ^ specUnitIdx n⟩ ++ " " ++ unitName (specUnitIdx n) := by
  have e2 : (1024 : Nat) ^ 2 = 1048576 := by norm_num
  have e3 : (1024 : Nat) ^ 3 = 1073741824 := by norm_num
  have e4 : (1024 : Nat) ^ 4 = 1099511627776 := by norm_num
  by_cases h0 : n < 1024
  · have hidx : specUnitIdx n = 0 := by unfold specUnitIdx; rw [if_pos h0]
    rw [hidx]
    simp only [format_size, format_size_loop, Frac.div1024]
    rw [if_pos (show Frac.lt1024 ⟨n, 1⟩ = true by simp [Frac.lt1024]; omega)]
    norm_num [unitName]
  · by_cases h1 : n < 1024 ^ 2
    · rw [e2] at h1
      have hidx : specUnitIdx n = 1 := by
        unfold specUnitIdx
        rw [if_neg h0, if_pos (by omega)]
      rw [hidx]
      simp only [format_size, format_size_loop, Frac.div1024]
      rw [if_neg (show ¬ Frac.lt1024 ⟨n, 1⟩ = true by simp [Frac.lt1024]; omega),
        if_pos (show Frac.lt1024 ⟨n, 1 * 1024⟩ = true by simp [Frac.lt1024]; omega)]
      norm_num [unitName]
    · rw [e2] at h1
      by_cases h2 : n < 1024 ^ 3
      · rw [e3] at h2
        have hidx : specUnitIdx n = 2 := by
          unfold specUnitIdx
          rw [if_neg h0, if_neg (by omega), if_pos (by omega)]
        rw [hidx]
        simp only [format_size, format_size_loop, Frac.div1024]
        rw [if_neg (show ¬ Frac.lt1024 ⟨n, 1⟩ = true by simp [Frac.lt1024]; omega),
          if_neg (show ¬ Frac.lt1024 ⟨n, 1 * 1024⟩ = true by
            simp [Frac.lt1024]; omega),
          if_pos (show Frac.lt1024 ⟨n, 1 * 1024 * 1024⟩ = true by
            simp [Frac.lt1024]; omega)]
        norm_num [unitName]
      · rw [e3] at h2
        by_cases h3 : n < 1024 ^ 4
        · rw [e4] at h3
          have hidx : specUnitIdx n = 3 := by
            unfold specUnitIdx
            rw [if_neg h0, if_neg (by omega), if_neg (by omega), if_pos (by omega)]
          rw [hidx]
          simp only [format_size, format_size_loop, Frac.div1024]
          rw [if_neg (show ¬ Frac.lt1024 ⟨n, 1⟩ = true by simp [Frac.lt1024]; omega),
            if_neg (show ¬ Frac.lt1024 ⟨n, 1 * 1024⟩ = true by
              simp [Frac.lt1024]; omega),
            if_neg (show ¬ Frac.lt1024 ⟨n, 1 * 1024 * 1024⟩ = true by
              simp [Frac.lt1024]; omega),
            if_pos (show Frac.lt1024 ⟨n, 1 * 1024 * 1024 * 1024⟩ = true by
              simp [Frac.lt1024]; omega)]
          norm_num [unitName]
        · rw [e4] at h3
          have hidx : specUnitIdx n = 4 := by
            unfold specUnitIdx
            rw [if_neg h0, if_neg (by omega), if_neg (by omega), if_neg (by omega)]
          rw [hidx]
          simp only [format_size, format_size_loop, Frac.div1024]
          rw [if_neg (show ¬ Frac.lt1024 ⟨n, 1⟩ = true by simp [Frac.lt1024]; omega),
            if_neg (show ¬ Frac.lt1024 ⟨n, 1 * 1024⟩ = true by
              simp [Frac.lt1024]; omega),
            if_neg (show ¬ Frac.lt1024 ⟨n, 1 * 1024 * 1024⟩ = true by
              simp [Frac.lt1024]; omega),
            if_neg (show ¬ Frac.lt1024 ⟨n, 1 * 1024 * 1024 * 1024⟩ = true by
              simp [Frac.lt1024]; omega)]
          norm_num [unitName]
          rw [String.append_assoc]
          congr 1

theorem specUnitIdx_lower (n : Nat) : ∀ m, m < specUnitIdx n → 1024 ^ (m + 1) ≤ n := by
  have e2 : (1024 : Nat) ^ 2 = 1048576 := by norm_num
  have e3 : (1024 : Nat) ^ 3 = 1073741824 := by norm_num
  have e4 : (1024 : Nat) ^ 4 = 1099511627776 := by norm_num
  intro m hm
  unfold specUnitIdx at hm
  rw [e2, e3, e4] at hm
  split_ifs at hm with h0 h1 h2 h3
  · omega
  · have hz : m = 0 := by omega
    subst hz
    norm_num
    omega
  · have hz : m = 0 ∨ m = 1 := by omega
    rcases hz with rfl | rfl <;> (norm_num; omega)
  · have hz : m = 0 ∨ m = 1 ∨ m = 2 := by omega
    rcases hz with rfl | rfl | rfl <;> (norm_num; omega)
  · have hz : m = 0 ∨ m = 1 ∨ m = 2 ∨ m = 3 := by omega
    rcases hz with rfl | rfl | rfl | rfl <;> (norm_num; omega)

theorem specUnitIdx_upper (n : Nat) (h4 : specUnitIdx n < 4) :
    n < 1024 ^ (specUnitIdx n + 1) := by
  have e2 : (1024 : Nat) ^ 2 = 1048576 := by norm_num
  have e3 : (1024 : Nat) ^ 3 = 1073741824 := by norm_num
  have e4 : (1024 : Nat) ^ 4 = 1099511627776 := by norm_num
  by_cases h0 : n < 1024
  · have hidx : specUnitIdx n = 0 := by unfold specUnitIdx; rw [if_pos h0]
    rw [hidx]
    norm_num
    omega
  · by_cases h1 : n < 1048576
    · have hidx : specUnitIdx n = 1 := by
        unfold specUnitIdx
        rw [if_neg h0, if_pos (by omega : n < 1024 ^ 2)]
      rw [hidx, e2]
      omega
    · by_cases h2 : n < 1073741824
      · have hidx : specUnitIdx n = 2 := by
          unfold specUnitIdx
          rw [if_neg h0, if_neg (by omega : ¬ n < 1024 ^ 2),
            if_pos (by omega : n < 1024 ^ 3)]
        rw [hidx, e3]
        omega
      · by_cases h3 : n < 1099511627776
        · have hidx : specUnitIdx n = 3 := by
            unfold specUnitIdx
            rw [if_neg h0, if_neg (by omega : ¬ n < 1024 ^ 2),
              if_neg (by omega : ¬ n < 1024 ^ 3), if_pos (by omega : n < 1024 ^ 4)]
          rw [hidx, e4]
          omega
        · have hidx : specUnitIdx n = 4 := by
            unfold specUnitIdx
            rw [if_neg h0, if_neg (by omega : ¬ n < 1024 ^ 2),
              if_neg (by omega : ¬ n < 1024 ^ 3), if_neg (by omega : ¬ n < 1024 ^ 4)]
          rw [hidx] at h4
          omega

theorem specUnitIdx_minimal (n : Nat) :
    (∀ k, k < specUnitIdx n → 1024 ≤ (n : ℚ) / 1024 ^ k)
  ∧ (specUnitIdx n < 4 → (n : ℚ) / 1024 ^ specUnitIdx n < 1024) := by
  constructor
  · intro k hk
    have h := specUnitIdx_lower n k hk
    have hpos : (0 : ℚ) < 1024 ^ k := by positivity
    rw [le_div_iff₀ hpos]
    have hr : (1024 : ℚ) * 1024 ^ k = 1024 ^ (k + 1) := by ring
    rw [hr]
    exact_mod_cast h
  · intro h4
    have h := specUnitIdx_upper n h4
    have hpos : (0 : ℚ) < 1024 ^ specUnitIdx n := by positivity
    rw [div_lt_iff₀ hpos]
    have hr : (1024 : ℚ) * 1024 ^ specUnitIdx n = 1024 ^ (specUnitIdx n + 1) := by
      ring
    rw [hr]
    exact_mod_cast h

/-- C5: for every non-negative byte count `n`, `format_size` returns
`"<value> <unit>"` where the unit has index `specUnitIdx n` — the smallest
unit among B, KB, MB, GB for which `n / 1024^k < 1024`, and TB when none —
and the value is `n / 1024^(that index)` rendered with exactly two decimal
digits; moreover the four concrete values stated by the spec hold. -/
theorem format_size_contract (n : Nat) :
    (format_size ⟨n, 1⟩
        = fix2 ⟨n, 1024 ^ specUnitIdx n⟩ ++ " " ++ unitName (specUnitIdx n))
  ∧ (∀ k, k < specUnitIdx n → 1024 ≤ (n : ℚ) / 1024 ^ k)
  ∧ (specUnitIdx n < 4 → (n : ℚ) / 1024 ^ specUnitIdx n < 1024)
  ∧ (∃ w d : Nat, d < 100 ∧ (pad2 d).length = 2 ∧
      fix2 ⟨n, 1024 ^ specUnitIdx n⟩ = Nat.repr w ++ "." ++ pad2 d)
  ∧ format_size ⟨0, 1⟩ = "0.00 B"
  ∧ format_size ⟨1023, 1⟩ = "1023.00 B"
  ∧ format_size ⟨1024, 1⟩ = "1.00 KB"
  ∧ format_size ⟨1024 * 1024, 1⟩ = "1.00 MB" :=
  ⟨format_size_eq_spec n, (specUnitIdx_minimal n).1, (specUnitIdx_minimal n).2,
   fix2_shape _, by decide, by decide, by decide, by decide⟩

/-- C5 (witness): the minimality hypotheses discharged at `n = 1024`:
the B unit is rejected (1024 / 1024^0 ≥ 1024) and the chosen KB value is
below 1024. -/
theorem format_size_contract_witness :
    1024 ≤ ((1024 : Nat) : ℚ) / 1024 ^ 0
  ∧ ((1024 : Nat) : ℚ) / 1024 ^ specUnitIdx 1024 < 1024 :=
  ⟨(format_size_contract 1024).2.1 0 (by decide),
   (format_size_contract 1024).2.2.1 (by decide)⟩
